import Mathlib

/-!
Verification of the Stream Deck driver core (src/models/base.ts).

Shallow embedding of the pure computation in the driver core: byte
buffers are modelled as List Nat (one entry per byte), device writes and
feature reports are captured as explicit lists of byte buffers, and a
thrown TypeError / RangeError becomes an Option DeckError paired with
the writes issued before the throw (always [] here, since every check in
the source runs before the first transport call of its operation).
Abstract members of StreamDeckBase (transformKeyIndex, convertFillImage,
getFillImagePacketLength) and the overridable
getFillImageCommandHeaderLength become fields of a DeckConfig record.
-/

namespace StreamDeckVerify

/-- Key ordering direction, the KEY_DIRECTION property (base.ts line 21). -/
inductive KeyDirection
  | ltr
  | rtl
deriving DecidableEq

/-- StreamDeckProperties (base.ts lines 16-23); MODEL is omitted, no
claim mentions it. -/
structure StreamDeckProperties where
  COLUMNS : Nat
  ROWS : Nat
  ICON_SIZE : Nat
  KEY_DIRECTION : KeyDirection
  KEY_DATA_OFFSET : Nat
deriving DecidableEq

/-- The NUM_KEYS getter (base.ts lines 116-118). -/
def NUM_KEYS (p : StreamDeckProperties) : Nat := p.COLUMNS * p.ROWS

/-- The ICON_PIXELS getter (base.ts lines 132-134). -/
def ICON_PIXELS (p : StreamDeckProperties) : Nat := p.ICON_SIZE * p.ICON_SIZE

/-- The ICON_BYTES getter (base.ts lines 129-131). -/
def ICON_BYTES (p : StreamDeckProperties) : Nat := ICON_PIXELS p * 3

/-- Source pixel formats (base.ts line 26).  In the source a format is a
string and sourceFormat.length is its string length. -/
inductive SourceFormat
  | rgb
  | rgba
  | bgr
  | bgra
deriving DecidableEq

/-- The string length of the format tag, which is also its bytes per pixel. -/
def SourceFormat.length : SourceFormat → Nat
  | .rgb => 3
  | .rgba => 4
  | .bgr => 3
  | .bgra => 4

/-- FillImageOptions (base.ts lines 25-27). -/
structure FillImageOptions where
  format : SourceFormat
deriving DecidableEq

/-- InternalFillImageOptions (base.ts lines 30-33). -/
structure InternalFillImageOptions where
  format : SourceFormat
  offset : Nat
  stride : Nat
deriving DecidableEq

/-- The TypeError / RangeError kinds thrown by the validation checks of
base.ts (checkValidKeyIndex, checkRGBValue, the image length checks,
checkSourceFormat's default branch, and the setBrightness range check). -/
inductive DeckError
  | invalidIndex
  | invalidColor
  | invalidImageLength
  | unknownFormat
  | invalidRange
deriving DecidableEq

/-- writeFillImageCommandHeader (base.ts lines 321-334): the six header
bytes written at offsets 0-5 (offset 3 keeps the buffer's zero fill).
Node's writeUInt16LE / writeUInt8 assert their argument is in range and
throw otherwise; the model stores the in-range byte values (each reduced
mod 256), which coincides with the source whenever no exception occurs
(partIndex < 65536 and keyIndex + 1 < 256). -/
def writeFillImageCommandHeader (keyIndex partIndex : Nat) (isLast : Bool) : List Nat :=
  [0x02, 0x01, partIndex % 256, partIndex / 256 % 256, if isLast then 1 else 0,
    (keyIndex + 1) % 256]

/-- One output packet of generateFillImageWrites: Buffer.alloc of the
full packet length (zero filled), the six header bytes written at offset
0, and the payload copied at offset headerLen.  This append form equals
the buffer the source builds whenever 6 <= headerLen and
payload.length <= packetLen - headerLen, which hold at every use below. -/
def mkFillImagePacket (packetLen headerLen keyIndex partIndex : Nat) (isLast : Bool)
    (payload : List Nat) : List Nat :=
  writeFillImageCommandHeader keyIndex partIndex isLast
    ++ List.replicate (headerLen - 6) 0
    ++ payload
    ++ List.replicate (packetLen - headerLen - payload.length) 0

/-- The for-loop of generateFillImageWrites (base.ts lines 346-357),
with arguments (fuel, part, remainingBytes).  The fuel argument only
makes the recursion structural: when headerLen < packetLen every
iteration consumes at least one remaining byte, so starting the fuel at
the buffer length (as generateFillImageWrites does) never exhausts it.
When packetLen <= headerLen the source loop would never terminate for a
nonempty buffer; the model returns [] on that unused branch. -/
def generateFillImageWritesGo (packetLen headerLen keyIndex : Nat) (byteBuffer : List Nat) :
    Nat → Nat → Nat → List (List Nat)
  | 0, _, _ => []
  | fuel + 1, part, remainingBytes =>
    if remainingBytes = 0 ∨ packetLen ≤ headerLen then []
    else
      mkFillImagePacket packetLen headerLen keyIndex part
          (decide (remainingBytes ≤ packetLen - headerLen))
          ((byteBuffer.drop (byteBuffer.length - remainingBytes)).take
            (min remainingBytes (packetLen - headerLen)))
        :: generateFillImageWritesGo packetLen headerLen keyIndex byteBuffer fuel (part + 1)
            (remainingBytes - min remainingBytes (packetLen - headerLen))

/-- generateFillImageWrites (base.ts lines 338-360), with the two
per-model quantities MAX_PACKET_SIZE and PACKET_HEADER_LENGTH passed as
the first two arguments. -/
def generateFillImageWrites (packetLen headerLen keyIndex : Nat)
    (byteBuffer : List Nat) : List (List Nat) :=
  generateFillImageWritesGo packetLen headerLen keyIndex byteBuffer byteBuffer.length 0
    byteBuffer.length

/-- The per-model parameters of StreamDeckBase: the property table plus
the abstract / overridable methods getFillImagePacketLength,
getFillImageCommandHeaderLength (16 in base.ts line 318),
transformKeyIndex and convertFillImage. -/
structure DeckConfig where
  props : StreamDeckProperties
  fillImagePacketLength : Nat
  fillImageCommandHeaderLength : Nat
  transformKeyIndex : Nat → Nat
  convertFillImage : List Nat → InternalFillImageOptions → List Nat

/-- fillImageRange (base.ts lines 369-378): checkValidKeyIndex, then
convertFillImage, then one device.write per generated packet.  The
result pairs the packets written to the transport with the error thrown,
if any.  The key index reaching this point is the already transformed
one, a Nat, so only the upper bound of checkValidKeyIndex can fire. -/
def fillImageRange (cfg : DeckConfig) (keyIndex : Nat) (imageBuffer : List Nat)
    (sourceOptions : InternalFillImageOptions) : List (List Nat) × Option DeckError :=
  if NUM_KEYS cfg.props ≤ keyIndex then ([], some .invalidIndex)
  else
    (generateFillImageWrites cfg.fillImagePacketLength cfg.fillImageCommandHeaderLength
      keyIndex (cfg.convertFillImage imageBuffer sourceOptions), none)

/-- fillColor (base.ts lines 189-205).  Buffer.alloc(ICON_BYTES,
Buffer.from([r, g, b])) repeats the three byte pattern, and ICON_BYTES =
ICON_PIXELS * 3, so the pixel buffer is the pattern joined ICON_PIXELS
times.  r, g, b are Int so that the negative branch of checkRGBValue is
representable; after validation they lie in [0, 255] and .toNat is their
byte value. -/
def fillColor (cfg : DeckConfig) (keyIndex r g b : Int) : List (List Nat) × Option DeckError :=
  if keyIndex < 0 ∨ (NUM_KEYS cfg.props : Int) ≤ keyIndex then ([], some .invalidIndex)
  else if r < 0 ∨ 255 < r then ([], some .invalidColor)
  else if g < 0 ∨ 255 < g then ([], some .invalidColor)
  else if b < 0 ∨ 255 < b then ([], some .invalidColor)
  else
    fillImageRange cfg (cfg.transformKeyIndex keyIndex.toNat)
      (List.flatten (List.replicate (ICON_PIXELS cfg.props) [r.toNat, g.toNat, b.toNat]))
      ⟨.rgb, 0, cfg.props.ICON_SIZE * 3⟩

/-- The expression options?.format ?? 'rgb' (base.ts lines 210 and
227): an omitted options argument or absent format field defaults the
source format to rgb. -/
def defaultedFormat (options : Option FillImageOptions) : SourceFormat :=
  match options with
  | some o => o.format
  | none => SourceFormat.rgb

/-- fillImage (base.ts lines 207-224).  checkSourceFormat never throws
for a well-typed format, so it contributes no branch. -/
def fillImage (cfg : DeckConfig) (keyIndex : Int) (imageBuffer : List Nat)
    (options : Option FillImageOptions) : List (List Nat) × Option DeckError :=
  if keyIndex < 0 ∨ (NUM_KEYS cfg.props : Int) ≤ keyIndex then ([], some .invalidIndex)
  else
    if imageBuffer.length
        ≠ ICON_PIXELS cfg.props * (defaultedFormat options).length then
      ([], some .invalidImageLength)
    else
      fillImageRange cfg (cfg.transformKeyIndex keyIndex.toNat) imageBuffer
        ⟨defaultedFormat options, 0,
          cfg.props.ICON_SIZE * (defaultedFormat options).length⟩

/-- Sequencing of operations that each return (writes, thrown error):
an exception aborts the rest, keeping the writes made so far. -/
def seqOps : List (List (List Nat) × Option DeckError) → List (List Nat) × Option DeckError
  | [] => ([], none)
  | (w, some e) :: _ => (w, some e)
  | (w, none) :: rest => (w ++ (seqOps rest).1, (seqOps rest).2)

/-- fillPanel (base.ts lines 226-258): length check against
ICON_PIXELS * format.length * NUM_KEYS, then the row/column double loop
over fillImageRange with the per-cell offset and the shared stride. -/
def fillPanel (cfg : DeckConfig) (imageBuffer : List Nat)
    (options : Option FillImageOptions) : List (List Nat) × Option DeckError :=
  let sourceFormat := defaultedFormat options
  if imageBuffer.length ≠ ICON_PIXELS cfg.props * sourceFormat.length * NUM_KEYS cfg.props then
    ([], some .invalidImageLength)
  else
    seqOps ((List.range cfg.props.ROWS).flatMap (fun row =>
      (List.range cfg.props.COLUMNS).map (fun column =>
        fillImageRange cfg
          (row * cfg.props.COLUMNS +
            (match cfg.props.KEY_DIRECTION with
             | .ltr => column
             | .rtl => cfg.props.COLUMNS - column - 1))
          imageBuffer
          ⟨sourceFormat,
            (cfg.props.ICON_SIZE * sourceFormat.length * cfg.props.COLUMNS) * row *
                cfg.props.ICON_SIZE +
              column * (cfg.props.ICON_SIZE * sourceFormat.length),
            cfg.props.ICON_SIZE * sourceFormat.length * cfg.props.COLUMNS⟩)))

/-- clearKey (base.ts lines 260-263): checkValidKeyIndex then
fillColor(keyIndex, 0, 0, 0). -/
def clearKey (cfg : DeckConfig) (keyIndex : Int) : List (List Nat) × Option DeckError :=
  if keyIndex < 0 ∨ (NUM_KEYS cfg.props : Int) ≤ keyIndex then ([], some .invalidIndex)
  else fillColor cfg keyIndex 0 0 0

/-- clearAllKeys (base.ts lines 265-270): clearKey for keyIndex = 0 up
to NUM_KEYS - 1 in order, a thrown error aborting the loop. -/
def clearAllKeys (cfg : DeckConfig) : List (List Nat) × Option DeckError :=
  seqOps ((List.range (NUM_KEYS cfg.props)).map
    (fun keyIndex : Nat => clearKey cfg (keyIndex : Int)))

/-- setBrightness (base.ts lines 272-284): range check, then one
sendFeatureReport with the fixed 17 byte buffer.  The result pairs the
feature reports sent with the error thrown, if any.  Buffer.from reduces
each entry mod 256; after validation the percentage byte is the
percentage itself. -/
def setBrightness (percentage : Int) : List (List Nat) × Option DeckError :=
  if percentage < 0 ∨ 100 < percentage then ([], some .invalidRange)
  else
    ([[0x05, 0x55, 0xaa, 0xd1, 0x01, percentage.toNat % 256, 0x00, 0x00,
       0x00, 0x00, 0x00, 0x00, 0x00, 0x00, 0x00, 0x00,
       0x00]], none)

/-- Observable effects of one call to close() (base.ts lines 304-311). -/
structure CloseEffects where
  hookReleased : Bool
  transportClosed : Bool
  errored : Bool
deriving DecidableEq

/-- close (base.ts lines 304-311): releaseExitHook, then, when
resetToLogoOnExit is configured, resetToLogo (whose sendFeatureReport
the transport may make throw, modelled by resetThrows), then
device.close().  There is no try/catch in close itself, so a throwing
reset step propagates and device.close() is never reached. -/
def close (resetToLogoOnExit resetThrows : Bool) : CloseEffects :=
  if resetToLogoOnExit then
    if resetThrows then ⟨true, false, true⟩
    else ⟨true, true, false⟩
  else ⟨true, true, false⟩

/-- The exit hook registered in the constructor (base.ts lines 154-160):
try close() catch ignore.  This wrapper, not close itself, swallows
errors. -/
def exitHookClose (resetToLogoOnExit resetThrows : Bool) : CloseEffects :=
  ⟨(close resetToLogoOnExit resetThrows).hookReleased,
    (close resetToLogoOnExit resetThrows).transportClosed, false⟩

/-- data.slice(KEY_DATA_OFFSET, data.length - 1) of the device data
listener (base.ts line 167). -/
def reportSlice (keyDataOffset : Nat) (data : List Nat) : List Nat :=
  (data.take (data.length - 1)).drop keyDataOffset

/-- The for-loop of the device data listener (base.ts lines 169-181),
iterating over the native indices still to process.  The accumulator
carries the keyState array and the events emitted so far; an event
(keyIndex, b) is an emit of 'down' when b = true and of 'up' when
b = false.  Boolean(data[i]) is false for an out-of-range read
(undefined), matching getD with default 0. -/
def procKeys (transformKeyIndex : Nat → Nat) (data : List Nat) :
    List Nat → List Bool × List (Nat × Bool) → List Bool × List (Nat × Bool)
  | [], acc => acc
  | i :: rest, (keyState, events) =>
    let keyPressed := data.getD i 0 != 0
    let keyIndex := transformKeyIndex i
    if keyPressed ≠ keyState.getD keyIndex false then
      procKeys transformKeyIndex data rest
        (keyState.set keyIndex keyPressed, events ++ [(keyIndex, keyPressed)])
    else
      procKeys transformKeyIndex data rest (keyState, events)

/-- The device data listener (base.ts lines 164-182): strip the header
offset and the trailing padding byte, then scan the native key indices
in order, emitting on transitions.  Returns the updated keyState and the
emitted events. -/
def onDeviceData (numKeys keyDataOffset : Nat) (transformKeyIndex : Nat → Nat)
    (keyState : List Bool) (data : List Nat) : List Bool × List (Nat × Bool) :=
  procKeys transformKeyIndex (reportSlice keyDataOffset data) (List.range numKeys)
    (keyState, [])

/-- A small concrete configuration used to evaluate the theorems below
on explicit inputs: a 2 column, 1 row device with 2 pixel icons, the
identity key transform, the identity image converter, packet length 20
and the base header length 16. -/
def demoDeck : DeckConfig :=
  ⟨⟨2, 1, 2, KeyDirection.ltr, 1⟩, 20, 16, fun i => i, fun buf _ => buf⟩

/-! ## Packet framer lemmas -/

theorem generateFillImageWritesGo_zero (P H k : Nat) (bytes : List Nat) (fuel part : Nat) :
    generateFillImageWritesGo P H k bytes fuel part 0 = [] := by
  cases fuel <;> simp [generateFillImageWritesGo]

theorem ceil_div_step (M rem : Nat) (hM : 0 < M) (hrem : 1 ≤ rem) :
    (rem + M - 1) / M = (rem - min rem M + M - 1) / M + 1 := by
  rcases le_or_lt rem M with hle | hlt
  · have h1 : rem - min rem M = 0 := by omega
    have h2 : rem + M - 1 = (rem - 1) + M := by omega
    have h3 : (rem - 1) / M = 0 := Nat.div_eq_of_lt (by omega)
    have h4 : (0 + M - 1) / M = 0 := Nat.div_eq_of_lt (by omega)
    rw [h1, h2, Nat.add_div_right _ hM, h3, h4]
  · have h1 : rem - min rem M = rem - M := by omega
    have h2 : rem + M - 1 = (rem - 1) + M := by omega
    have h3 : rem - M + M - 1 = rem - 1 := by omega
    rw [h1, h2, Nat.add_div_right _ hM, h3]

theorem generateFillImageWritesGo_length (P H k : Nat) (bytes : List Nat) (hHP : H < P) :
    ∀ fuel part rem, rem ≤ fuel →
      (generateFillImageWritesGo P H k bytes fuel part rem).length
        = (rem + (P - H) - 1) / (P - H) := by
  intro fuel
  induction fuel with
  | zero =>
    intro part rem hrem
    have h0 : rem = 0 := Nat.le_zero.mp hrem
    subst h0
    have hdiv : (0 + (P - H) - 1) / (P - H) = 0 := Nat.div_eq_of_lt (by omega)
    rw [generateFillImageWritesGo_zero, List.length_nil, hdiv]
  | succ f ih =>
    intro part rem hrem
    by_cases h0 : rem = 0
    · subst h0
      have hdiv : (0 + (P - H) - 1) / (P - H) = 0 := Nat.div_eq_of_lt (by omega)
      rw [generateFillImageWritesGo_zero, List.length_nil, hdiv]
    · have hg : ¬(rem = 0 ∨ P ≤ H) := by omega
      simp only [generateFillImageWritesGo]
      rw [if_neg hg, List.length_cons,
        ih (part + 1) (rem - min rem (P - H)) (by omega)]
      exact (ceil_div_step (P - H) rem (by omega) (by omega)).symm

theorem mkFillImagePacket_length (P H k p : Nat) (b : Bool) (payload : List Nat)
    (h6 : 6 ≤ H) (hHP : H < P) (hp : payload.length ≤ P - H) :
    (mkFillImagePacket P H k p b payload).length = P := by
  simp only [mkFillImagePacket, writeFillImageCommandHeader, List.length_append,
    List.length_replicate, List.length_cons, List.length_nil]
  omega

theorem mkFillImagePacket_drop (P H k p : Nat) (b : Bool) (payload : List Nat)
    (h6 : 6 ≤ H) :
    (mkFillImagePacket P H k p b payload).drop H
      = payload ++ List.replicate (P - H - payload.length) 0 := by
  have hl : (writeFillImageCommandHeader k p b ++ List.replicate (H - 6) 0).length = H := by
    simp only [List.length_append, List.length_replicate, writeFillImageCommandHeader,
      List.length_cons, List.length_nil]
    omega
  calc (mkFillImagePacket P H k p b payload).drop H
      = ((writeFillImageCommandHeader k p b ++ List.replicate (H - 6) 0)
          ++ (payload ++ List.replicate (P - H - payload.length) 0)).drop H := by
        simp only [mkFillImagePacket, List.append_assoc]
    _ = payload ++ List.replicate (P - H - payload.length) 0 := List.drop_left' hl

theorem mkFillImagePacket_getD_tail (P H k p : Nat) (b : Bool) (payload : List Nat)
    (h6 : 6 ≤ H) (t : Nat) (ht : H + payload.length ≤ t) :
    (mkFillImagePacket P H k p b payload).getD t 0 = 0 := by
  have hl : (writeFillImageCommandHeader k p b ++ List.replicate (H - 6) 0).length = H := by
    simp only [List.length_append, List.length_replicate, writeFillImageCommandHeader,
      List.length_cons, List.length_nil]
    omega
  have hassoc : mkFillImagePacket P H k p b payload
      = (writeFillImageCommandHeader k p b ++ List.replicate (H - 6) 0)
          ++ (payload ++ List.replicate (P - H - payload.length) 0) := by
    simp only [mkFillImagePacket, List.append_assoc]
  rw [hassoc, List.getD_eq_getElem?_getD, List.getElem?_append_right (by omega), hl,
    List.getElem?_append_right (by omega), List.getElem?_replicate]
  split <;> rfl

theorem generateFillImageWritesGo_getD (P H k : Nat) (bytes : List Nat) (hHP : H < P) :
    ∀ fuel part rem j, rem ≤ fuel → rem ≤ bytes.length →
      j < (generateFillImageWritesGo P H k bytes fuel part rem).length →
      (generateFillImageWritesGo P H k bytes fuel part rem).getD j []
          = mkFillImagePacket P H k (part + j)
              (decide (rem - j * (P - H) ≤ P - H))
              ((bytes.drop (bytes.length - rem + j * (P - H))).take
                (min (rem - j * (P - H)) (P - H)))
        ∧ j * (P - H) < rem := by
  intro fuel
  induction fuel with
  | zero =>
    intro part rem j hfuel hlen hj
    rw [Nat.le_zero.mp hfuel, generateFillImageWritesGo_zero] at hj
    exact absurd hj (by simp)
  | succ f ih =>
    intro part rem j hfuel hlen hj
    by_cases h0 : rem = 0
    · rw [h0, generateFillImageWritesGo_zero] at hj
      exact absurd hj (by simp)
    · have hg : ¬(rem = 0 ∨ P ≤ H) := by omega
      simp only [generateFillImageWritesGo, if_neg hg] at hj ⊢
      cases j with
      | zero =>
        refine ⟨?_, by omega⟩
        simp only [List.getD_cons_zero, Nat.add_zero, Nat.zero_mul, Nat.sub_zero]
      | succ j =>
        rcases le_or_lt rem (P - H) with hle | hlt
        · have hmin : min rem (P - H) = rem := Nat.min_eq_left hle
          rw [hmin, Nat.sub_self, generateFillImageWritesGo_zero] at hj
          simp only [List.length_cons, List.length_nil] at hj
          omega
        · have hmin : min rem (P - H) = P - H := Nat.min_eq_right (Nat.le_of_lt hlt)
          rw [hmin] at hj ⊢
          simp only [List.length_cons] at hj
          have hrec := ih (part + 1) (rem - (P - H)) j (by omega) (by omega)
            (by omega)
          rw [List.getD_cons_succ]
          have e1 : part + 1 + j = part + (j + 1) := by omega
          have e2 : rem - (P - H) - j * (P - H) = rem - (j + 1) * (P - H) := by
            rw [Nat.succ_mul]
            omega
          have e3 : bytes.length - (rem - (P - H)) + j * (P - H)
              = bytes.length - rem + (j + 1) * (P - H) := by
            rw [Nat.succ_mul]
            omega
          have e4 : (j + 1) * (P - H) = j * (P - H) + (P - H) := Nat.succ_mul j (P - H)
          rw [e1, e2, e3] at hrec
          exact ⟨hrec.1, by omega⟩

theorem generateFillImageWrites_length (P H k : Nat) (bytes : List Nat) (hHP : H < P) :
    (generateFillImageWrites P H k bytes).length
      = (bytes.length + (P - H) - 1) / (P - H) :=
  generateFillImageWritesGo_length P H k bytes hHP bytes.length 0 bytes.length le_rfl

theorem generateFillImageWrites_getD (P H k : Nat) (bytes : List Nat) (hHP : H < P)
    (j : Nat) (hj : j < (generateFillImageWrites P H k bytes).length) :
    (generateFillImageWrites P H k bytes).getD j []
        = mkFillImagePacket P H k j (decide (bytes.length - j * (P - H) ≤ P - H))
            ((bytes.drop (j * (P - H))).take (min (bytes.length - j * (P - H)) (P - H)))
      ∧ j * (P - H) < bytes.length := by
  have h := generateFillImageWritesGo_getD P H k bytes hHP bytes.length 0 bytes.length j
    le_rfl le_rfl hj
  rw [Nat.zero_add, Nat.sub_self, Nat.zero_add] at h
  exact h

theorem generateFillImageWritesGo_mem_length (P H k : Nat) (bytes : List Nat)
    (hHP : H < P) (h6 : 6 ≤ H) :
    ∀ fuel part rem pkt, pkt ∈ generateFillImageWritesGo P H k bytes fuel part rem →
      pkt.length = P := by
  intro fuel
  induction fuel with
  | zero =>
    intro part rem pkt hmem
    rw [generateFillImageWritesGo] at hmem
    exact absurd hmem (by simp)
  | succ f ih =>
    intro part rem pkt hmem
    by_cases hg : rem = 0 ∨ P ≤ H
    · rw [generateFillImageWritesGo, if_pos hg] at hmem
      exact absurd hmem (by simp)
    · rw [generateFillImageWritesGo, if_neg hg] at hmem
      rcases List.mem_cons.mp hmem with hhead | htail
      · subst hhead
        refine mkFillImagePacket_length P H k part _ _ h6 hHP ?_
        rw [List.length_take]
        omega
      · exact ih (part + 1) (rem - min rem (P - H)) pkt htail

theorem generateFillImageWritesGo_roundtrip (P H k : Nat) (bytes : List Nat)
    (hHP : H < P) (h6 : 6 ≤ H) :
    ∀ fuel part rem, rem ≤ fuel → rem ≤ bytes.length →
      (((generateFillImageWritesGo P H k bytes fuel part rem).map
          (fun pkt => pkt.drop H)).flatten).take rem
        = bytes.drop (bytes.length - rem) := by
  intro fuel
  induction fuel with
  | zero =>
    intro part rem hfuel hlen
    have h0 : rem = 0 := Nat.le_zero.mp hfuel
    subst h0
    rw [generateFillImageWritesGo_zero]
    simp
  | succ f ih =>
    intro part rem hfuel hlen
    by_cases h0 : rem = 0
    · subst h0
      rw [generateFillImageWritesGo_zero]
      simp
    · have hg : ¬(rem = 0 ∨ P ≤ H) := by omega
      rw [generateFillImageWritesGo, if_neg hg, List.map_cons, List.flatten_cons,
        mkFillImagePacket_drop P H k part _ _ h6]
      have hdlen : (bytes.drop (bytes.length - rem)).length = rem := by
        rw [List.length_drop]
        omega
      rcases le_or_lt rem (P - H) with hle | hlt
      · have hmin : min rem (P - H) = rem := Nat.min_eq_left hle
        rw [hmin, Nat.sub_self, generateFillImageWritesGo_zero]
        have hTL : (bytes.drop (bytes.length - rem)).take rem
            = bytes.drop (bytes.length - rem) := List.take_of_length_le (le_of_eq hdlen)
        rw [hTL]
        simp only [List.map_nil, List.flatten_nil, List.append_nil]
        rw [List.take_append_of_le_length (le_of_eq hdlen.symm)]
        exact List.take_of_length_le (le_of_eq hdlen)
      · have hmin : min rem (P - H) = P - H := Nat.min_eq_right (Nat.le_of_lt hlt)
        rw [hmin]
        have hpaylen : ((bytes.drop (bytes.length - rem)).take (P - H)).length
            = P - H := by
          rw [List.length_take]
          omega
        rw [hpaylen]
        rw [Nat.sub_self]
        simp only [List.replicate_zero, List.append_nil]
        have htop : ((bytes.drop (bytes.length - rem)).take (P - H)).length ≤ rem := by
          omega
        rw [List.take_append_eq_append_take, hpaylen,
          List.take_of_length_le htop,
          ih (part + 1) (rem - (P - H)) (by omega) (by omega)]
        have hdd : bytes.drop (bytes.length - (rem - (P - H)))
            = (bytes.drop (bytes.length - rem)).drop (P - H) := by
          rw [List.drop_drop]
          have e : bytes.length - rem + (P - H) = bytes.length - (rem - (P - H)) := by omega
          rw [e]
        rw [hdd]
        exact List.take_append_drop (P - H) (bytes.drop (bytes.length - rem))

theorem mkFillImagePacket_header_bytes (P H k p : Nat) (b : Bool) (payload : List Nat) :
    (mkFillImagePacket P H k p b payload).getD 0 0 = 0x02
    ∧ (mkFillImagePacket P H k p b payload).getD 1 0 = 0x01
    ∧ (mkFillImagePacket P H k p b payload).getD 2 0 = p % 256
    ∧ (mkFillImagePacket P H k p b payload).getD 3 0 = p / 256 % 256
    ∧ (mkFillImagePacket P H k p b payload).getD 4 0 = (if b then 1 else 0)
    ∧ (mkFillImagePacket P H k p b payload).getD 5 0 = (k + 1) % 256 :=
  ⟨rfl, rfl, rfl, rfl, rfl, rfl⟩

/-! ## Claim C1 -/

/-- C1 (counterexample): the packet framer called on an empty
wire-format buffer returns no packet at all, refuting the claim that it
always returns at least one (header-only) packet. -/
theorem c1_empty_buffer_counterexample :
    ¬ 1 ≤ (generateFillImageWrites 20 16 0 []).length := by decide

/-- C1 (amended): for every native key index and wire-format buffer,
generateFillImageWrites returns exactly ceil(len(bytes) / M) packets,
where M is the packet length minus the header length; in particular an
empty buffer yields zero packets, not a header-only one. -/
theorem c1_packet_count (P H k : Nat) (bytes : List Nat) (hHP : H < P) :
    (generateFillImageWrites P H k bytes).length
      = (bytes.length + (P - H) - 1) / (P - H) :=
  generateFillImageWrites_length P H k bytes hHP

/-- C1 witness: the amended count theorem evaluated at a 5 byte buffer
with packet length 20 and header length 16, giving 2 packets. -/
theorem c1_packet_count_witness :
    (generateFillImageWrites 20 16 0 [1, 2, 3, 4, 5]).length
      = ([1, 2, 3, 4, 5].length + (20 - 16) - 1) / (20 - 16) :=
  c1_packet_count 20 16 0 [1, 2, 3, 4, 5] (by decide)

/-! ## Claim C4 -/

/-- C4: every packet produced by the framer has exactly the fixed model
packet length; every packet except possibly the last carries exactly
M = packetLen - headerLen payload bytes taken verbatim from the buffer;
every byte of a packet past its copied payload (in particular the last
packet's unused payload tail) is zero; and concatenating the payload
regions of all packets and trimming to the original length reconstructs
the input buffer exactly. -/
theorem c4_framer_shape_roundtrip (P H k : Nat) (bytes : List Nat)
    (h6 : 6 ≤ H) (hHP : H < P) :
    (∀ pkt ∈ generateFillImageWrites P H k bytes, pkt.length = P)
    ∧ (∀ j, j + 1 < (generateFillImageWrites P H k bytes).length →
        ((generateFillImageWrites P H k bytes).getD j []).drop H
            = (bytes.drop (j * (P - H))).take (P - H)
          ∧ ((bytes.drop (j * (P - H))).take (P - H)).length = P - H)
    ∧ (∀ j, j < (generateFillImageWrites P H k bytes).length →
        ∀ t, H + min (bytes.length - j * (P - H)) (P - H) ≤ t →
          ((generateFillImageWrites P H k bytes).getD j []).getD t 0 = 0)
    ∧ ((generateFillImageWrites P H k bytes).map (fun pkt => pkt.drop H)).flatten.take
        bytes.length = bytes := by
  refine ⟨?_, ?_, ?_, ?_⟩
  · intro pkt hmem
    exact generateFillImageWritesGo_mem_length P H k bytes hHP h6 bytes.length 0
      bytes.length pkt hmem
  · intro j hj1
    obtain ⟨hEq, _⟩ := generateFillImageWrites_getD P H k bytes hHP j (by omega)
    obtain ⟨_, hlt1⟩ := generateFillImageWrites_getD P H k bytes hHP (j + 1) hj1
    rw [Nat.succ_mul] at hlt1
    have hrem : P - H < bytes.length - j * (P - H) := by omega
    have hmin : min (bytes.length - j * (P - H)) (P - H) = P - H :=
      Nat.min_eq_right (Nat.le_of_lt hrem)
    have hpaylen : ((bytes.drop (j * (P - H))).take
        (min (bytes.length - j * (P - H)) (P - H))).length = P - H := by
      rw [List.length_take, List.length_drop]
      omega
    constructor
    · rw [hEq, mkFillImagePacket_drop P H k j _ _ h6, hpaylen, Nat.sub_self,
        List.replicate_zero, List.append_nil, hmin]
    · rw [List.length_take, List.length_drop]
      omega
  · intro j hj t ht
    obtain ⟨hEq, _⟩ := generateFillImageWrites_getD P H k bytes hHP j hj
    have hpaylen : ((bytes.drop (j * (P - H))).take
        (min (bytes.length - j * (P - H)) (P - H))).length
        = min (bytes.length - j * (P - H)) (P - H) := by
      rw [List.length_take, List.length_drop]
      omega
    rw [hEq]
    refine mkFillImagePacket_getD_tail P H k j _ _ h6 t ?_
    rw [hpaylen]
    omega
  · have h := generateFillImageWritesGo_roundtrip P H k bytes hHP h6 bytes.length 0
      bytes.length le_rfl le_rfl
    rw [Nat.sub_self, List.drop_zero] at h
    exact h

/-- C4 witness: the round-trip conjunct evaluated on a concrete 5 byte
buffer with packet length 20 and header length 16. -/
theorem c4_framer_shape_roundtrip_witness :
    ((generateFillImageWrites 20 16 0 [1, 2, 3, 4, 5]).map
        (fun pkt => pkt.drop 16)).flatten.take 5 = [1, 2, 3, 4, 5] :=
  (c4_framer_shape_roundtrip 20 16 0 [1, 2, 3, 4, 5] (by decide) (by decide)).2.2.2

/-! ## Claim C5 -/

/-- C5: in the packet sequence for native key k, the j-th packet's
header has byte0 = 0x02, byte1 = 0x01, bytes 2-3 the part index j in
little-endian (so part indices are strictly increasing from 0), byte4
the isLast flag which is 1 exactly when the remaining unsent byte count
len - j*M at build time is at most M, and byte5 = k + 1, the 1-based
native key index. -/
theorem c5_header_fields (P H k : Nat) (bytes : List Nat) (j : Nat)
    (_h6 : 6 ≤ H) (hHP : H < P) (hk : k + 1 < 256)
    (hj : j < (generateFillImageWrites P H k bytes).length) :
    ((generateFillImageWrites P H k bytes).getD j []).getD 0 0 = 0x02
    ∧ ((generateFillImageWrites P H k bytes).getD j []).getD 1 0 = 0x01
    ∧ ((generateFillImageWrites P H k bytes).getD j []).getD 2 0 = j % 256
    ∧ ((generateFillImageWrites P H k bytes).getD j []).getD 3 0 = j / 256 % 256
    ∧ (j < 65536 →
        ((generateFillImageWrites P H k bytes).getD j []).getD 2 0
          + 256 * ((generateFillImageWrites P H k bytes).getD j []).getD 3 0 = j)
    ∧ ((generateFillImageWrites P H k bytes).getD j []).getD 4 0
        = (if bytes.length - j * (P - H) ≤ P - H then 1 else 0)
    ∧ ((generateFillImageWrites P H k bytes).getD j []).getD 5 0 = k + 1 := by
  obtain ⟨hEq, _⟩ := generateFillImageWrites_getD P H k bytes hHP j hj
  rw [hEq]
  obtain ⟨h0, h1, h2, h3, h4, h5⟩ := mkFillImagePacket_header_bytes P H k j
    (decide (bytes.length - j * (P - H) ≤ P - H))
    ((bytes.drop (j * (P - H))).take (min (bytes.length - j * (P - H)) (P - H)))
  refine ⟨h0, h1, h2, h3, ?_, ?_, ?_⟩
  · intro hsmall
    rw [h2, h3]
    omega
  · rw [h4]
    by_cases hc : bytes.length - j * (P - H) ≤ P - H
    · simp [hc]
    · simp [hc]
  · rw [h5]
    exact Nat.mod_eq_of_lt hk

/-- C5 witness: header fields of the second packet (part index 1) for
key 0 on a 5 byte buffer: byte0 is the report marker 2 and byte5 is the
1-based key index 1. -/
theorem c5_header_fields_witness :
    ((generateFillImageWrites 20 16 0 [1, 2, 3, 4, 5]).getD 1 []).getD 0 0 = 0x02
    ∧ ((generateFillImageWrites 20 16 0 [1, 2, 3, 4, 5]).getD 1 []).getD 5 0 = 1 :=
  ⟨(c5_header_fields 20 16 0 [1, 2, 3, 4, 5] 1 (by decide) (by decide) (by decide)
      (by decide)).1,
   (c5_header_fields 20 16 0 [1, 2, 3, 4, 5] 1 (by decide) (by decide) (by decide)
      (by decide)).2.2.2.2.2.2⟩

/-! ## Input state tracker lemmas -/

theorem procKeys_length (tr : Nat → Nat) (d : List Nat) :
    ∀ idxs st evs, (procKeys tr d idxs (st, evs)).1.length = st.length := by
  intro idxs
  induction idxs with
  | nil => intro st evs; rfl
  | cons i rest ih =>
    intro st evs
    simp only [procKeys]
    split
    · rw [ih]
      exact List.length_set st _ _
    · exact ih st evs

theorem procKeys_getD_not_mem (tr : Nat → Nat) (d : List Nat) :
    ∀ idxs st evs c, (∀ i ∈ idxs, tr i ≠ c) →
      (procKeys tr d idxs (st, evs)).1.getD c false = st.getD c false := by
  intro idxs
  induction idxs with
  | nil => intro st evs c h; rfl
  | cons i rest ih =>
    intro st evs c h
    have hic : tr i ≠ c := h i (List.mem_cons_self i rest)
    simp only [procKeys]
    split
    · rw [ih _ _ c (fun j hj => h j (List.mem_cons_of_mem i hj))]
      rw [List.getD_eq_getElem?_getD, List.getD_eq_getElem?_getD,
        List.getElem?_set_ne hic, ← List.getD_eq_getElem?_getD,
        List.getD_eq_getElem?_getD]
    · exact ih _ _ c (fun j hj => h j (List.mem_cons_of_mem i hj))

theorem procKeys_getD_post (tr : Nat → Nat) (d : List Nat) :
    ∀ idxs st evs, idxs.Nodup →
      (∀ i ∈ idxs, ∀ j ∈ idxs, tr i = tr j → i = j) →
      (∀ i ∈ idxs, tr i < st.length) →
      ∀ i ∈ idxs,
        (procKeys tr d idxs (st, evs)).1.getD (tr i) false = (d.getD i 0 != 0) := by
  intro idxs
  induction idxs with
  | nil => intro st evs _ _ _ i hi; exact absurd hi (by simp)
  | cons i0 rest ih =>
    intro st evs hnd hinj hbd i hi
    have hrest_ne : ∀ j ∈ rest, tr j ≠ tr i0 := by
      intro j hj hEq
      have : j = i0 := hinj j (List.mem_cons_of_mem i0 hj) i0 (List.mem_cons_self i0 rest) hEq
      subst this
      exact (List.nodup_cons.mp hnd).1 hj
    rcases List.mem_cons.mp hi with hi0 | hirest
    · subst hi0
      simp only [procKeys]
      split
      · rw [procKeys_getD_not_mem tr d rest _ _ (tr i) hrest_ne]
        rw [List.getD_eq_getElem?_getD, List.getElem?_set_self
          (hbd i (List.mem_cons_self i rest))]
        rfl
      · rw [procKeys_getD_not_mem tr d rest _ _ (tr i) hrest_ne]
        next hcond => exact (not_ne_iff.mp hcond).symm
    · simp only [procKeys]
      have hnd2 := (List.nodup_cons.mp hnd).2
      have hinj2 : ∀ a ∈ rest, ∀ b ∈ rest, tr a = tr b → a = b := fun a ha b hb =>
        hinj a (List.mem_cons_of_mem i0 ha) b (List.mem_cons_of_mem i0 hb)
      split
      · refine ih _ _ hnd2 hinj2 ?_ i hirest
        intro j hj
        rw [List.length_set]
        exact hbd j (List.mem_cons_of_mem i0 hj)
      · exact ih _ _ hnd2 hinj2 (fun j hj => hbd j (List.mem_cons_of_mem i0 hj)) i hirest

theorem procKeys_no_change (tr : Nat → Nat) (d : List Nat) :
    ∀ idxs st evs, (∀ i ∈ idxs, st.getD (tr i) false = (d.getD i 0 != 0)) →
      procKeys tr d idxs (st, evs) = (st, evs) := by
  intro idxs
  induction idxs with
  | nil => intro st evs _; rfl
  | cons i rest ih =>
    intro st evs h
    have hcond : ¬((d.getD i 0 != 0) ≠ st.getD (tr i) false) := by
      rw [h i (List.mem_cons_self i rest)]
      exact not_ne_iff.mpr rfl
    simp only [procKeys, if_neg hcond]
    exact ih st evs (fun j hj => h j (List.mem_cons_of_mem i hj))

theorem procKeys_events_sublist (tr : Nat → Nat) (d : List Nat) :
    ∀ idxs st evs, ∃ l, (procKeys tr d idxs (st, evs)).2 = evs ++ l
      ∧ (l.map Prod.fst).Sublist (idxs.map tr) := by
  intro idxs
  induction idxs with
  | nil => intro st evs; exact ⟨[], by simp [procKeys], by simp⟩
  | cons i rest ih =>
    intro st evs
    simp only [procKeys]
    split
    · obtain ⟨l, hl, hsub⟩ := ih (st.set (tr i) (d.getD i 0 != 0))
        (evs ++ [(tr i, d.getD i 0 != 0)])
      refine ⟨(tr i, d.getD i 0 != 0) :: l, ?_, ?_⟩
      · rw [hl]
        simp
      · simpa using List.Sublist.cons₂ (tr i) hsub
    · obtain ⟨l, hl, hsub⟩ := ih st evs
      exact ⟨l, hl, List.Sublist.cons (tr i) hsub⟩

theorem procKeys_event_mem (tr : Nat → Nat) (d : List Nat) :
    ∀ idxs st evs, idxs.Nodup →
      (∀ i ∈ idxs, ∀ j ∈ idxs, tr i = tr j → i = j) →
      (∀ i ∈ idxs, tr i < st.length) →
      ∀ i ∈ idxs,
        ((tr i, (d.getD i 0 != 0)) ∈ (procKeys tr d idxs (st, evs)).2
          ↔ (tr i, (d.getD i 0 != 0)) ∈ evs
            ∨ (d.getD i 0 != 0) ≠ st.getD (tr i) false) := by
  intro idxs
  induction idxs with
  | nil => intro st evs _ _ _ i hi; exact absurd hi (by simp)
  | cons i0 rest ih =>
    intro st evs hnd hinj hbd i hi
    have hrest_ne : ∀ j ∈ rest, tr j ≠ tr i0 := by
      intro j hj hEq
      have : j = i0 := hinj j (List.mem_cons_of_mem i0 hj) i0 (List.mem_cons_self i0 rest) hEq
      subst this
      exact (List.nodup_cons.mp hnd).1 hj
    have hnd2 := (List.nodup_cons.mp hnd).2
    have hinj2 : ∀ a ∈ rest, ∀ b ∈ rest, tr a = tr b → a = b := fun a ha b hb =>
      hinj a (List.mem_cons_of_mem i0 ha) b (List.mem_cons_of_mem i0 hb)
    rcases List.mem_cons.mp hi with hi0 | hirest
    · subst hi0
      simp only [procKeys]
      split
      · next hcond =>
        obtain ⟨l, hl, hsub⟩ := procKeys_events_sublist tr d rest
          (st.set (tr i) (d.getD i 0 != 0)) (evs ++ [(tr i, d.getD i 0 != 0)])
        rw [hl]
        have hnotl : (tr i, (d.getD i 0 != 0)) ∉ l := by
          intro hmem
          have : tr i ∈ rest.map tr := hsub.subset (List.mem_map_of_mem Prod.fst hmem)
          obtain ⟨j, hj, hEq⟩ := List.mem_map.mp this
          exact hrest_ne j hj hEq
        constructor
        · intro _
          exact Or.inr hcond
        · intro _
          simp [List.mem_append]
      · next hcond =>
        obtain ⟨l, hl, hsub⟩ := procKeys_events_sublist tr d rest st evs
        rw [hl]
        have hnotl : (tr i, (d.getD i 0 != 0)) ∉ l := by
          intro hmem
          have : tr i ∈ rest.map tr := hsub.subset (List.mem_map_of_mem Prod.fst hmem)
          obtain ⟨j, hj, hEq⟩ := List.mem_map.mp this
          exact hrest_ne j hj hEq
        rw [List.mem_append]
        constructor
        · intro h
          rcases h with h | h
          · exact Or.inl h
          · exact absurd h hnotl
        · intro h
          rcases h with h | h
          · exact Or.inl h
          · exact absurd h hcond
    · have hne : tr i ≠ tr i0 := by
        intro hEq
        have : i = i0 := hinj i hi i0 (List.mem_cons_self i0 rest) hEq
        subst this
        exact (List.nodup_cons.mp hnd).1 hirest
      simp only [procKeys]
      split
      · next hcond =>
        have hbd2 : ∀ j ∈ rest, tr j < (st.set (tr i0) (d.getD i0 0 != 0)).length := by
          intro j hj
          rw [List.length_set]
          exact hbd j (List.mem_cons_of_mem i0 hj)
        rw [ih _ _ hnd2 hinj2 hbd2 i hirest]
        have hst : (st.set (tr i0) (d.getD i0 0 != 0)).getD (tr i) false
            = st.getD (tr i) false := by
          rw [List.getD_eq_getElem?_getD, List.getD_eq_getElem?_getD,
            List.getElem?_set_ne hne.symm, ← List.getD_eq_getElem?_getD,
            List.getD_eq_getElem?_getD]
        rw [hst, List.mem_append]
        have hne2 : (tr i, (d.getD i 0 != 0)) ∉ [(tr i0, (d.getD i0 0 != 0))] := by
          simp only [List.mem_singleton]
          intro hEq
          exact hne (congrArg Prod.fst hEq)
        constructor
        · intro h
          rcases h with h | h
          · rcases h with h | h
            · exact Or.inl h
            · exact absurd h hne2
          · exact Or.inr h
        · intro h
          rcases h with h | h
          · exact Or.inl (Or.inl h)
          · exact Or.inr h
      · exact ih _ _ hnd2 hinj2 (fun j hj => hbd j (List.mem_cons_of_mem i0 hj)) i hirest

/-! ## Claim C3 -/

/-- C3 (counterexample): on a right-to-left 5 column device, a report
whose byte for native key 0 is nonzero does not store into entry 0 of
the key state array (refuting the claim that entry i is the cell written
for native index i); the pressed bit lands in entry
transformKeyIndex(0) = 4 instead. -/
theorem c3_native_cell_counterexample :
    ¬ ((onDeviceData 15 1 (fun i => 5 * (i / 5) + (4 - i % 5)) (List.replicate 15 false)
          ([0, 1] ++ List.replicate 15 0)).1.getD 0 false
        = ((reportSlice 1 ([0, 1] ++ List.replicate 15 0)).getD 0 0 != 0))
    ∧ (onDeviceData 15 1 (fun i => 5 * (i / 5) + (4 - i % 5)) (List.replicate 15 false)
          ([0, 1] ++ List.replicate 15 0)).1.getD 4 false = true := by
  constructor
  · decide
  · decide

/-- C3 (amended): while processing a report, the state cell compared
against and written for native index i is entry transformKeyIndex(i) of
the key state array, the same transformed index that tags the emitted
event, not entry i: after processing, entry transformKeyIndex(i) holds
the pressed bit of native byte i, and every emitted event is tagged with
a transformed index. -/
theorem c3_state_cell_transformed (N off : Nat) (tr : Nat → Nat) (st : List Bool)
    (data : List Nat)
    (hinj : ∀ i j, i < N → j < N → tr i = tr j → i = j)
    (hbound : ∀ i, i < N → tr i < N)
    (hlen : st.length = N) :
    (∀ i, i < N →
      (onDeviceData N off tr st data).1.getD (tr i) false
        = ((reportSlice off data).getD i 0 != 0))
    ∧ ∀ e ∈ (onDeviceData N off tr st data).2, e.1 ∈ (List.range N).map tr := by
  constructor
  · intro i hi
    exact procKeys_getD_post tr (reportSlice off data) (List.range N) st []
      (List.nodup_range N)
      (fun a ha b hb => hinj a b (List.mem_range.mp ha) (List.mem_range.mp hb))
      (fun a ha => by rw [hlen]; exact hbound a (List.mem_range.mp ha))
      i (List.mem_range.mpr hi)
  · intro e he
    obtain ⟨l, hl, hsub⟩ := procKeys_events_sublist tr (reportSlice off data)
      (List.range N) st []
    rw [show (onDeviceData N off tr st data).2
        = (procKeys tr (reportSlice off data) (List.range N) (st, [])).2 from rfl,
      hl, List.nil_append] at he
    exact hsub.subset (List.mem_map_of_mem Prod.fst he)

/-- C3 witness: the amended theorem applied at the identity transform on
a 15 key device with a report pressing native key 0; the state cell
holding that key's pressed bit is entry transformKeyIndex(0). -/
theorem c3_state_cell_transformed_witness :
    (onDeviceData 15 1 (fun i => i) (List.replicate 15 false)
        ([0, 1] ++ List.replicate 15 0)).1.getD 0 false
      = ((reportSlice 1 ([0, 1] ++ List.replicate 15 0)).getD 0 0 != 0) :=
  (c3_state_cell_transformed 15 1 (fun i => i) (List.replicate 15 false)
      ([0, 1] ++ List.replicate 15 0)
      (fun i j _ _ h => h) (fun i h => h) (by decide)).1 0 (by decide)

/-! ## Claim C7 -/

/-- C7: input state tracking is change-driven and idempotent: a down/up
event tagged transformKeyIndex(i) with the pressed bit of native byte i
is emitted exactly when that bit differs from the stored previous state
of that cell; at most one event is emitted per key per report; and
processing the same report twice in immediate succession emits zero
events the second time. -/
theorem c7_change_driven_idempotent (N off : Nat) (tr : Nat → Nat) (st : List Bool)
    (data : List Nat)
    (hinj : ∀ i j, i < N → j < N → tr i = tr j → i = j)
    (hbound : ∀ i, i < N → tr i < N)
    (hlen : st.length = N) :
    (onDeviceData N off tr (onDeviceData N off tr st data).1 data).2 = []
    ∧ (∀ c, (((onDeviceData N off tr st data).2.filter (fun e => e.1 == c)).length ≤ 1))
    ∧ (∀ i, i < N →
        (((tr i, ((reportSlice off data).getD i 0 != 0)) ∈ (onDeviceData N off tr st data).2)
          ↔ ((reportSlice off data).getD i 0 != 0) ≠ st.getD (tr i) false)) := by
  have hinjm : ∀ a ∈ List.range N, ∀ b ∈ List.range N, tr a = tr b → a = b :=
    fun a ha b hb => hinj a b (List.mem_range.mp ha) (List.mem_range.mp hb)
  have hbdm : ∀ a ∈ List.range N, tr a < st.length :=
    fun a ha => by rw [hlen]; exact hbound a (List.mem_range.mp ha)
  refine ⟨?_, ?_, ?_⟩
  · have hpost := procKeys_getD_post tr (reportSlice off data) (List.range N) st []
      (List.nodup_range N) hinjm hbdm
    have hst1len : (onDeviceData N off tr st data).1.length = st.length :=
      procKeys_length tr (reportSlice off data) (List.range N) st []
    have hnc := procKeys_no_change tr (reportSlice off data) (List.range N)
      (onDeviceData N off tr st data).1 []
      (fun i hi => hpost i hi)
    show (procKeys tr (reportSlice off data) (List.range N)
      ((onDeviceData N off tr st data).1, [])).2 = []
    rw [hnc]
  · intro c
    obtain ⟨l, hl, hsub⟩ := procKeys_events_sublist tr (reportSlice off data)
      (List.range N) st []
    have hevs : (onDeviceData N off tr st data).2 = l := by
      show (procKeys tr (reportSlice off data) (List.range N) (st, [])).2 = l
      rw [hl, List.nil_append]
    rw [hevs]
    have hnodup : ((List.range N).map tr).Nodup :=
      (List.nodup_range N).map_on hinjm
    have hlnodup : (l.map Prod.fst).Nodup := hsub.nodup hnodup
    have hcount : (l.map Prod.fst).count c ≤ 1 :=
      List.nodup_iff_count_le_one.mp hlnodup c
    rw [List.count_eq_countP, List.countP_map] at hcount
    rw [← List.countP_eq_length_filter]
    exact le_trans (le_of_eq (by rfl)) hcount
  · intro i hi
    have h := procKeys_event_mem tr (reportSlice off data) (List.range N) st []
      (List.nodup_range N) hinjm hbdm i (List.mem_range.mpr hi)
    simpa using h

/-- C7 witness: the idempotence conjunct on a concrete 15 key device:
feeding the same report a second time emits no events. -/
theorem c7_change_driven_idempotent_witness :
    (onDeviceData 15 1 (fun i => i)
        (onDeviceData 15 1 (fun i => i) (List.replicate 15 false)
          ([0, 1] ++ List.replicate 15 0)).1
        ([0, 1] ++ List.replicate 15 0)).2 = [] :=
  (c7_change_driven_idempotent 15 1 (fun i => i) (List.replicate 15 false)
      ([0, 1] ++ List.replicate 15 0) (fun i j _ _ h => h) (fun i h => h) (by decide)).1

/-! ## Claim C2 -/

/-- C2 (counterexample): with resetToLogoOnExit configured and the
reset-to-logo step throwing, close() propagates the error and the
transport handle is never closed, refuting the claim that close swallows
the reset error so that the transport close always still runs. -/
theorem c2_close_counterexample :
    (close true true).transportClosed = false ∧ (close true true).errored = true := by
  decide

/-- C2 (amended): close() itself catches nothing: it always releases the
exit hook first; when the optional reset-to-logo step runs and throws,
the error propagates out of close() and the transport close is skipped,
otherwise the transport is closed and no error escapes.  The swallowing
of errors happens one level up, in the constructor's exit-hook wrapper,
which invokes close() inside try/catch and never lets an error escape. -/
theorem c2_close_error_propagation (resetToLogoOnExit resetThrows : Bool) :
    (close resetToLogoOnExit resetThrows).hookReleased = true
    ∧ (close resetToLogoOnExit resetThrows).transportClosed
        = !(resetToLogoOnExit && resetThrows)
    ∧ (close resetToLogoOnExit resetThrows).errored = (resetToLogoOnExit && resetThrows)
    ∧ (exitHookClose resetToLogoOnExit resetThrows).errored = false
    ∧ (exitHookClose resetToLogoOnExit resetThrows).transportClosed
        = !(resetToLogoOnExit && resetThrows) := by
  cases resetToLogoOnExit <;> cases resetThrows <;> decide

/-! ## Claim C6 -/

/-- C6: validation is fail-fast with no partial writes: for a valid key
index, fillColor with any color component outside [0, 255] throws the
invalid-color error having written zero packets, and fillImage with a
buffer whose length differs from ICON_PIXELS times the bytes per pixel
of the (possibly defaulted) format throws the invalid-length error
having written zero packets. -/
theorem c6_fail_fast_validation (cfg : DeckConfig) (k r g b : Int) (buf : List Nat)
    (options : Option FillImageOptions)
    (hk0 : 0 ≤ k) (hkN : k < (NUM_KEYS cfg.props : Int)) :
    ((r < 0 ∨ 255 < r ∨ g < 0 ∨ 255 < g ∨ b < 0 ∨ 255 < b) →
      fillColor cfg k r g b = ([], some DeckError.invalidColor))
    ∧ (buf.length ≠ ICON_PIXELS cfg.props * (defaultedFormat options).length →
      fillImage cfg k buf options = ([], some DeckError.invalidImageLength)) := by
  constructor
  · intro hbad
    simp only [fillColor]
    split_ifs with h1 h2 h3 h4
    · exact absurd h1 (by omega)
    · rfl
    · rfl
    · rfl
    · exact absurd hbad (by omega)
  · intro hlen
    simp only [fillImage]
    split_ifs with h1
    · exact absurd h1 (by omega)
    · rfl

/-- C6 witness: on a concrete 2 key device, fillColor with r = 256 and
fillImage with an empty buffer each fail before any write. -/
theorem c6_fail_fast_validation_witness :
    fillColor demoDeck 0 256 0 0 = ([], some DeckError.invalidColor)
    ∧ fillImage demoDeck 0 [] none = ([], some DeckError.invalidImageLength) :=
  ⟨(c6_fail_fast_validation demoDeck 0 256 0 0 [] none (by decide) (by decide)).1
      (by decide),
   (c6_fail_fast_validation demoDeck 0 256 0 0 [] none (by decide) (by decide)).2
      (by decide)⟩

/-! ## Claim C8 -/

/-- C8: setBrightness outside [0, 100] throws a range error and sends no
feature report; setBrightness with a percentage in [0, 100] sends
exactly one feature report, the 17 byte buffer
[0x05, 0x55, 0xAA, 0xD1, 0x01, percentage, 0 x 11]. -/
theorem c8_brightness_report (p : Int) :
    ((p < 0 ∨ 100 < p) → setBrightness p = ([], some DeckError.invalidRange))
    ∧ (0 ≤ p → p ≤ 100 →
      setBrightness p
        = ([[0x05, 0x55, 0xaa, 0xd1, 0x01, p.toNat, 0x00, 0x00, 0x00, 0x00, 0x00,
            0x00, 0x00, 0x00, 0x00, 0x00, 0x00]], none)) := by
  constructor
  · intro h
    simp only [setBrightness]
    rw [if_pos h]
  · intro h0 h100
    have hmod : p.toNat % 256 = p.toNat := Nat.mod_eq_of_lt (by omega)
    simp only [setBrightness]
    rw [if_neg (by omega), hmod]

/-- C8 witness: setBrightness 150 fails with the range error and sends
nothing; setBrightness 50 sends exactly the 17 byte report with byte 5
equal to 50. -/
theorem c8_brightness_report_witness :
    setBrightness 150 = ([], some DeckError.invalidRange)
    ∧ setBrightness 50
      = ([[0x05, 0x55, 0xaa, 0xd1, 0x01, 50, 0x00, 0x00, 0x00, 0x00, 0x00,
          0x00, 0x00, 0x00, 0x00, 0x00, 0x00]], none) :=
  ⟨(c8_brightness_report 150).1 (by decide),
   (c8_brightness_report 50).2 (by decide) (by decide)⟩

/-! ## Claim C9 -/

theorem seqOps_all_none :
    ∀ l : List (List (List Nat) × Option DeckError), (∀ x ∈ l, x.2 = none) →
      seqOps l = ((l.map Prod.fst).flatten, none) := by
  intro l
  induction l with
  | nil => intro _; rfl
  | cons x rest ih =>
    intro h
    obtain ⟨w, e⟩ := x
    have he : e = none := h (w, e) (List.mem_cons_self _ _)
    subst he
    simp only [seqOps, List.map_cons, List.flatten_cons,
      ih (fun y hy => h y (List.mem_cons_of_mem _ hy))]

theorem fillColor_black_ok (cfg : DeckConfig) (i : Nat)
    (hi : i < NUM_KEYS cfg.props)
    (htr : cfg.transformKeyIndex i < NUM_KEYS cfg.props) :
    fillColor cfg (i : Int) 0 0 0
      = (generateFillImageWrites cfg.fillImagePacketLength
          cfg.fillImageCommandHeaderLength (cfg.transformKeyIndex i)
          (cfg.convertFillImage
            (List.flatten (List.replicate (ICON_PIXELS cfg.props) [0, 0, 0]))
            ⟨SourceFormat.rgb, 0, cfg.props.ICON_SIZE * 3⟩), none) := by
  simp only [fillColor]
  rw [if_neg (by omega), if_neg (by omega), if_neg (by omega), if_neg (by omega)]
  simp only [fillImageRange, Int.toNat_natCast, Int.toNat_zero]
  rw [if_neg (by omega)]

/-- C9: clearKey on every valid logical key performs exactly
fillColor(key, 0, 0, 0), and clearAllKeys performs exactly NUM_KEYS such
fillColor calls, one per logical key in ascending order 0, 1, ...,
NUM_KEYS - 1, its transport trace being their concatenation. -/
theorem c9_clear_is_black_fill (cfg : DeckConfig)
    (htr : ∀ i, i < NUM_KEYS cfg.props →
      cfg.transformKeyIndex i < NUM_KEYS cfg.props) :
    (∀ k : Int, 0 ≤ k → k < (NUM_KEYS cfg.props : Int) →
      clearKey cfg k = fillColor cfg k 0 0 0)
    ∧ clearAllKeys cfg
      = (((List.range (NUM_KEYS cfg.props)).map
          (fun i : Nat => (fillColor cfg (i : Int) 0 0 0).1)).flatten, none) := by
  have hclear : ∀ i, i < NUM_KEYS cfg.props →
      clearKey cfg (i : Int) = fillColor cfg (i : Int) 0 0 0 := by
    intro i hi
    simp only [clearKey]
    rw [if_neg (by omega)]
  constructor
  · intro k h0 hN
    simp only [clearKey]
    rw [if_neg (by omega)]
  · have hnone : ∀ x ∈ (List.range (NUM_KEYS cfg.props)).map
        (fun i : Nat => clearKey cfg (i : Int)), x.2 = none := by
      intro x hx
      obtain ⟨i, hi, hEq⟩ := List.mem_map.mp hx
      have hiN := List.mem_range.mp hi
      rw [← hEq, hclear i hiN, fillColor_black_ok cfg i hiN (htr i hiN)]
    simp only [clearAllKeys]
    rw [seqOps_all_none _ hnone, List.map_map]
    have hmaps : List.map (Prod.fst ∘ fun i : Nat => clearKey cfg (i : Int))
        (List.range (NUM_KEYS cfg.props))
        = List.map (fun i : Nat => (fillColor cfg (i : Int) 0 0 0).1)
            (List.range (NUM_KEYS cfg.props)) := by
      refine List.map_congr_left ?_
      intro i hi
      have hiN := List.mem_range.mp hi
      show (clearKey cfg (i : Int)).1 = (fillColor cfg (i : Int) 0 0 0).1
      rw [hclear i hiN]
    rw [hmaps]

/-- C9 witness: clearAllKeys on a concrete 2 key device is the
concatenation of the fillColor(k, 0, 0, 0) traces for k = 0, 1. -/
theorem c9_clear_is_black_fill_witness :
    clearAllKeys demoDeck
      = (((List.range 2).map
          (fun i : Nat => (fillColor demoDeck (i : Int) 0 0 0).1)).flatten, none) :=
  (c9_clear_is_black_fill demoDeck (fun _ h => h)).2

/-! ## Claim C10 -/

/-- C10: with the options argument omitted, fillImage and fillPanel
behave exactly as if format rgb had been passed; moreover for a valid
key and a buffer of the rgb expected length ICON_PIXELS * 3, fillImage
with omitted options succeeds and invokes the conversion path with
format rgb and stride ICON_SIZE * 3. -/
theorem c10_default_format_rgb (cfg : DeckConfig) (k : Int) (buf : List Nat) :
    fillImage cfg k buf none = fillImage cfg k buf (some ⟨SourceFormat.rgb⟩)
    ∧ fillPanel cfg buf none = fillPanel cfg buf (some ⟨SourceFormat.rgb⟩)
    ∧ (0 ≤ k → k < (NUM_KEYS cfg.props : Int) →
        cfg.transformKeyIndex k.toNat < NUM_KEYS cfg.props →
        buf.length = ICON_PIXELS cfg.props * 3 →
        fillImage cfg k buf none
          = (generateFillImageWrites cfg.fillImagePacketLength
              cfg.fillImageCommandHeaderLength (cfg.transformKeyIndex k.toNat)
              (cfg.convertFillImage buf
                ⟨SourceFormat.rgb, 0, cfg.props.ICON_SIZE * 3⟩), none)) := by
  refine ⟨rfl, rfl, ?_⟩
  intro h0 hN htr hlen
  simp only [fillImage, defaultedFormat, SourceFormat.length]
  rw [if_neg (by omega), if_neg (not_ne_iff.mpr hlen)]
  simp only [fillImageRange]
  rw [if_neg (by omega)]

/-- C10 witness: fillImage with omitted options on a concrete 2 key
device with a 12 byte buffer (ICON_PIXELS * 3) succeeds through the rgb
conversion path. -/
theorem c10_default_format_rgb_witness :
    fillImage demoDeck 0 (List.replicate 12 0) none
      = (generateFillImageWrites 20 16 0
          (demoDeck.convertFillImage (List.replicate 12 0)
            ⟨SourceFormat.rgb, 0, 6⟩), none) :=
  (c10_default_format_rgb demoDeck 0 (List.replicate 12 0)).2.2 (by decide) (by decide)
    (by decide) (by decide)

end StreamDeckVerify
